import Mathlib

/-!
Verification of the fetch-cache / data-loader core of the Visualization_Lab
repository (`src/data_processing/utils.py` and `src/data_processing/data_loader.py`).

The Python functions are shallowly embedded as executable Lean definitions.
Calendar dates are modelled as triples `(year, month, day)` of naturals with
the Gregorian leap-year rule, exactly as Python's `datetime` implements them.
-/

namespace VisLab

/-- Gregorian leap-year test, as in `utils.date_to_timestep_index`:
`(year % 4 == 0 and year % 100 != 0) or (year % 400 == 0)`. -/
def isLeap (y : Nat) : Bool :=
  (y % 4 == 0 && y % 100 != 0) || (y % 400 == 0)

/-- Days in a calendar year (366 for leap years, else 365). -/
def daysInYear (y : Nat) : Nat :=
  if isLeap y then 366 else 365

/-- Days in month `m` (1..12) of year `y`, as Python's `datetime` computes. -/
def daysInMonth (y m : Nat) : Nat :=
  if m = 2 then (if isLeap y then 29 else 28)
  else if m = 4 ∨ m = 6 ∨ m = 9 ∨ m = 11 then 30
  else 31

/-- A calendar date `(year, month, day)`. -/
abbrev Date := Nat × Nat × Nat

/-- 0-based day-of-year of `(y, m, d)`: Python's
`(date - datetime(date.year, 1, 1)).days`. -/
def dayOfYear (y m d : Nat) : Nat :=
  ((List.range (m - 1)).map (fun i => daysInMonth y (i + 1))).sum + (d - 1)

/-- `utils.date_to_timestep_index`:
`timestep = year * days_in_year(year) + day_of_year` (0-based day of year). -/
def date_to_timestep_index (dt : Date) : Nat :=
  dt.1 * daysInYear dt.1 + dayOfYear dt.1 dt.2.1 dt.2.2

/-- The `while` loop of `utils.timestep_index_to_date`, starting at year 1950
with `days_counted = 0`; it stops at the first year whose full day count would
exceed `timestep`.  The loop body adds at least 365 to `daysCounted` and runs
only while `daysCounted ≤ timestep`, so `timestep + 1` units of fuel always
suffice and the fuel is never exhausted on the call below. -/
def tsLoop (timestep : Nat) : Nat → Nat → Nat → Nat × Nat
  | 0, year, daysCounted => (year, daysCounted)
  | fuel + 1, year, daysCounted =>
    if daysCounted + daysInYear year > timestep then (year, daysCounted)
    else tsLoop timestep fuel (year + 1) (daysCounted + daysInYear year)

/-- Convert a 0-based day-of-year offset inside year `y` into a date;
models `datetime(year, 1, 1) + timedelta(days=day_of_year)` for an offset
smaller than the length of year `y` (guaranteed by the loop's exit
condition).  Twelve units of fuel cover the twelve months. -/
def ordinalToDate (y : Nat) : Nat → Nat → Nat → Date
  | 0, m, doy => (y, m, doy + 1)
  | fuel + 1, m, doy =>
    if doy < daysInMonth y m then (y, m, doy + 1)
    else ordinalToDate y fuel (m + 1) (doy - daysInMonth y m)

/-- `utils.timestep_index_to_date`: walk years cumulatively from 1950, then
place the remaining offset inside the found year. -/
def timestep_index_to_date (timestep : Nat) : Date :=
  let p := tsLoop timestep (timestep + 1) 1950 0
  ordinalToDate p.1 12 1 (timestep - p.2)

/-- Strict lexicographic order on dates (`<` of Python `datetime`). -/
def dateLt (a b : Date) : Bool :=
  a.1 < b.1 || (a.1 == b.1 && (a.2.1 < b.2.1 || (a.2.1 == b.2.1 && a.2.2 < b.2.2)))

/-- Non-strict lexicographic order on dates (`<=` of Python `datetime`). -/
def dateLe (a b : Date) : Bool :=
  a.1 < b.1 || (a.1 == b.1 && (a.2.1 < b.2.1 || (a.2.1 == b.2.1 && a.2.2 ≤ b.2.2)))

/-- Successor date: `datetime + timedelta(days=1)` with month/year rollover. -/
def nextDay : Date → Date
  | (y, m, d) =>
    if d < daysInMonth y m then (y, m, d + 1)
    else if m < 12 then (y, m + 1, 1)
    else (y + 1, 1, 1)

/-- `datetime + timedelta(days=n)`: iterate `nextDay`. -/
def addDays : Date → Nat → Date
  | dt, 0 => dt
  | dt, n + 1 => addDays (nextDay dt) n

/-- The date-list loop of `data_loader.load_time_series` (lines 211-215):
`while current <= end_date: dates.append(current); current += timedelta(days=step_days)`.
Each iteration advances `cur` by `step ≥ 1` days while `cur ≤ endD`, so the
number of iterations is at most the number of days from year 0 through
`endD`'s year, which is below `366 * (endD.year + 1)` — the fuel used by
`buildDates` below is therefore never exhausted. -/
def buildDatesGo (endD : Date) (step : Nat) : Nat → Date → List Date
  | 0, _ => []
  | fuel + 1, cur =>
    if dateLe cur endD then cur :: buildDatesGo endD step fuel (addDays cur step)
    else []

/-- The stepped date list of `load_time_series` before subsampling. -/
def buildDates (startD endD : Date) (step : Nat) : List Date :=
  buildDatesGo endD step (366 * (endD.1 + 1)) startD

/-- The value at position `i` of `np.linspace(0, n - 1, num, dtype=int)`.
NumPy computes `i * (n - 1) / (num - 1)` in float64 (setting the final
element to the endpoint exactly, and returning `[0]` when `num == 1`) and
the `int` dtype truncates toward zero.  For the nonnegative values here the
truncation is a floor, so the value is the natural-number quotient
`i * (n - 1) / (num - 1)`; float64 rounding of the division can differ from
the exact quotient only at near-tie points, which leaves the monotonicity,
range and endpoint facts proved below unchanged. -/
def linspaceIdx (n num i : Nat) : Nat :=
  if num = 1 then 0
  else if i = num - 1 then n - 1
  else i * (n - 1) / (num - 1)

/-- The `seen`-set deduplication loop of `_evenly_subsample_dates`
(lines 66-72): keep the first occurrence of each index, in order. -/
def dedupKeepFirst (seen : List Nat) : List Nat → List Nat
  | [] => []
  | x :: xs =>
    if x ∈ seen then dedupKeepFirst seen xs
    else x :: dedupKeepFirst (x :: seen) xs

/-- `data_loader._evenly_subsample_dates`.  The element type is kept
abstract with decidable equality, which is all the Python body uses (`!=`
on the final fixup).  The final `match` models
`if reduced and reduced[-1] != dates[-1]: reduced[-1] = dates[-1]`
(when `reduced` is nonempty, `dates` is also nonempty on every reachable
path, since the subsampling branch requires `len(dates) > max_points ≥ 1`). -/
def evenlySubsampleDates {α : Type} [DecidableEq α]
    (dates : List α) (maxPoints : Int) : List α :=
  if maxPoints ≤ 0 ∨ (dates.length : Int) ≤ maxPoints then dates
  else
    let num := maxPoints.toNat
    let indices := (List.range num).map (linspaceIdx dates.length num)
    let reduced := (dedupKeepFirst [] indices).filterMap (fun i => dates[i]?)
    match reduced.getLast?, dates.getLast? with
    | some r, some dLast =>
      if r ≠ dLast then reduced.dropLast ++ [dLast] else reduced
    | _, _ => reduced

/-- The date list actually loaded by `load_time_series` (lines 211-219):
step from `startD` to `endD` by `step` days, then subsample to `cap`. -/
def timeSeriesDates (startD endD : Date) (step : Nat) (cap : Int) : List Date :=
  evenlySubsampleDates (buildDates startD endD step) cap

/-! The two cache tiers and the read path of `data_loader.py`.  A fetch key
`(field, timestep_idx, quality)` is kept abstract as a type `κ` with
decidable equality (the SHA-1 filename derivation is injective on the keys'
string encoding); a raster blob is an abstract type `α`. -/

/-- A disk-cache file for a key: either a well-formed array blob or a file
on which `np.load` fails. -/
inductive DiskFile (α : Type) where
  | good : α → DiskFile α
  | corrupt : DiskFile α
deriving DecidableEq

/-- The disk tier of `utils.py`: the `config.DISK_CACHE_ENABLED` flag and
the per-key file store. -/
structure DiskCache (κ α : Type) where
  enabled : Bool
  files : κ → Option (DiskFile α)

/-- `utils.read_from_disk_cache`: disabled tier ⇒ miss; missing file ⇒ miss;
good file ⇒ hit (the source returns it as a read-only memmap); corrupt file
⇒ delete it and report a miss.  The `except Exception` body catches every
load failure, so no error ever escapes — the function is total.  The
`path.unlink()` of the corrupt path is modelled as succeeding (its
`except OSError: pass` only suppresses OS-level failures). -/
def readFromDiskCache {κ α : Type} [DecidableEq κ] (dc : DiskCache κ α) (k : κ) :
    Option α × DiskCache κ α :=
  if dc.enabled = false then (none, dc)
  else
    match dc.files k with
    | none => (none, dc)
    | some (DiskFile.good v) => (some v, dc)
    | some DiskFile.corrupt =>
      (none, { dc with files := fun k2 => if k2 = k then none else dc.files k2 })

/-- `utils.write_to_disk_cache` at the key-to-blob level: no-op when the
tier is disabled or the file already exists; otherwise the blob is stored
(the temporary-file/rename mechanics are modelled step by step below by
`writeToDiskCacheSteps`). -/
def writeToDiskCache {κ α : Type} [DecidableEq κ] (dc : DiskCache κ α) (k : κ) (v : α) :
    DiskCache κ α :=
  if dc.enabled = false then dc
  else if (dc.files k).isSome then dc
  else { dc with files := fun k2 => if k2 = k then some (DiskFile.good v) else dc.files k2 }

/-- Lookup in the `functools.lru_cache` memory tier of
`_read_dataset_cached`, modelled as an association list in
most-recently-used-first order. -/
def memFind {κ α : Type} [DecidableEq κ] (mem : List (κ × α)) (k : κ) : Option α :=
  (mem.find? (fun p => decide (p.1 = k))).map Prod.snd

/-- `lru_cache` hit bookkeeping: the hit entry becomes most recent. -/
def memTouch {κ α : Type} [DecidableEq κ] (mem : List (κ × α)) (k : κ) : List (κ × α) :=
  match mem.find? (fun p => decide (p.1 = k)) with
  | none => mem
  | some e => e :: mem.filter (fun p => decide (p.1 ≠ k))

/-- `lru_cache` insertion on a miss: the new entry becomes most recent and
the least-recently-used entry is evicted when the bound
(`config.MEMORY_CACHE_MAXSIZE`) is exceeded. -/
def memInsert {κ α : Type} (memMax : Nat) (mem : List (κ × α)) (k : κ) (v : α) :
    List (κ × α) :=
  ((k, v) :: mem).take memMax

/-- The mutable state the loader's read path touches: both cache tiers. -/
structure LoaderState (κ α : Type) where
  disk : DiskCache κ α
  mem : List (κ × α)

/-- `data_loader._read_dataset_cached` (the `lru_cache`-wrapped body): a
memory hit returns the shared entry; otherwise the remote fetch runs; on
success the result is written to the disk cache
(`utils.write_to_disk_cache`), memoized, and returned; a raised fetch error
propagates unchanged and nothing is stored in either tier (`lru_cache` does
not cache exceptions). -/
def readDatasetCached {κ α ε : Type} [DecidableEq κ] (memMax : Nat)
    (fetch : κ → Except ε α) (st : LoaderState κ α) (k : κ) :
    Except ε α × LoaderState κ α :=
  match memFind st.mem k with
  | some v => (Except.ok v, { st with mem := memTouch st.mem k })
  | none =>
    match fetch k with
    | Except.error e => (Except.error e, st)
    | Except.ok v =>
      (Except.ok v,
        { disk := writeToDiskCache st.disk k v, mem := memInsert memMax st.mem k v })

/-- `data_loader._read_dataset`: consult the disk cache first and return a
disk hit directly, bypassing the memory tier; otherwise fall through to the
memoized `_read_dataset_cached`. -/
def readDataset {κ α ε : Type} [DecidableEq κ] (memMax : Nat)
    (fetch : κ → Except ε α) (st : LoaderState κ α) (k : κ) :
    Except ε α × LoaderState κ α :=
  let p := readFromDiskCache st.disk k
  match p.1 with
  | some v => (Except.ok v, { st with disk := p.2 })
  | none => readDatasetCached memMax fetch { st with disk := p.2 } k

/-! Step-level model of `utils.write_to_disk_cache` for the atomicity of the
temporary-file-then-rename protocol. -/

/-- Contents of a file touched by the disk-cache write: a fully written
array blob, or a torn one left by an interrupted `np.save`. -/
inductive FileData (α : Type) where
  | whole : α → FileData α
  | torn : FileData α
deriving DecidableEq

/-- The two file-system names `write_to_disk_cache` touches for one key:
the final cache path and its sibling temporary path. -/
structure WriteFs (α : Type) where
  finalFile : Option (FileData α)
  tmpFile : Option (FileData α)
deriving DecidableEq

/-- One primitive file-system action of `write_to_disk_cache`:
`np.save(tmp_path, data)` running to completion, `np.save` interrupted
midway, the atomic `os.replace(tmp_path, path)`, and the exception
handler's unlinking of both names. -/
inductive WriteStep (α : Type) where
  | saveWhole : α → WriteStep α
  | saveTorn : WriteStep α
  | renameTmp : WriteStep α
  | unlinkBoth : WriteStep α
deriving DecidableEq

def applyWriteStep {α : Type} : WriteFs α → WriteStep α → WriteFs α
  | fs, WriteStep.saveWhole d => { fs with tmpFile := some (FileData.whole d) }
  | fs, WriteStep.saveTorn => { fs with tmpFile := some FileData.torn }
  | fs, WriteStep.renameTmp => { finalFile := fs.tmpFile, tmpFile := none }
  | _, WriteStep.unlinkBoth => { finalFile := none, tmpFile := none }

/-- The file-system actions `write_to_disk_cache` performs: none when the
tier is disabled or the final file already exists (lines 233-239); otherwise
save-to-temporary followed by the atomic rename (lines 241-245), with the
`except` handler removing both names if the save is interrupted
(lines 246-252). -/
def writeToDiskCacheSteps {α : Type} (enabled : Bool) (fs : WriteFs α) (d : α)
    (saveOk : Bool) : List (WriteStep α) :=
  if enabled = false then []
  else if fs.finalFile.isSome then []
  else if saveOk then [WriteStep.saveWhole d, WriteStep.renameTmp]
  else [WriteStep.saveTorn, WriteStep.unlinkBoth]

def runWriteSteps {α : Type} (fs : WriteFs α) (steps : List (WriteStep α)) : WriteFs α :=
  steps.foldl applyWriteStep fs

/-! The two multi-item entry points, over an abstract per-item loader. -/

/-- `data_loader.load_data_batch`: the per-request `try/except` appends
either the item's result or an error marker, so the returned list always
covers every request. -/
def loadDataBatch {ρ ε δ : Type} (load1 : ρ → Except ε δ) : List ρ → List (Except ε δ)
  | [] => []
  | r :: rs => load1 r :: loadDataBatch load1 rs

/-- The per-date loading of `data_loader.load_time_series` (sequential path,
lines 241-242; the thread-pool path re-raises the first failing future's
exception from `future.result()` the same way): the first failing date
aborts the whole call with that error and no partial series is returned. -/
def loadTimeSeriesItems {ρ ε δ : Type} (load1 : ρ → Except ε δ) :
    List ρ → Except ε (List δ)
  | [] => Except.ok []
  | r :: rs =>
    match load1 r with
    | Except.error e => Except.error e
    | Except.ok v =>
      match loadTimeSeriesItems load1 rs with
      | Except.error e => Except.error e
      | Except.ok vs => Except.ok (v :: vs)

/-! Concrete instances used by the witness theorems. -/

/-- A concrete loader state: the disk tier holds key 1, the memory tier
holds key 2, and key 3 is in neither. -/
def sampleState : LoaderState Nat Nat :=
  ⟨⟨true, fun k => if k = 1 then some (DiskFile.good 10) else none⟩, [(2, 20)]⟩

/-- A concrete fetch: key 3 succeeds, everything else fails. -/
def sampleFetch : Nat → Except String Nat :=
  fun k => if k = 3 then Except.ok 103 else Except.error "boom"

/-- A concrete loader state with empty tiers. -/
def emptyState : LoaderState Nat Nat := ⟨⟨true, fun _ => none⟩, []⟩

/-- A concrete per-item loader: request 1 fails, everything else succeeds. -/
def sampleLoad1 : Nat → Except Nat Nat :=
  fun n => if n = 1 then Except.error 7 else Except.ok (n + 100)

/-! Helper lemmas about the subsampler's index selection. -/

theorem dedupKeepFirst_sublist (l : List Nat) :
    ∀ seen, List.Sublist (dedupKeepFirst seen l) l := by
  induction l with
  | nil => intro seen; simp [dedupKeepFirst]
  | cons x xs ih =>
    intro seen
    by_cases hx : x ∈ seen
    · simpa [dedupKeepFirst, hx] using (ih seen).cons x
    · simpa [dedupKeepFirst, hx] using (ih (x :: seen)).cons₂ x

theorem mem_dedupKeepFirst (l : List Nat) :
    ∀ seen x, x ∈ l → x ∉ seen → x ∈ dedupKeepFirst seen l := by
  induction l with
  | nil => intro seen x hx _; cases hx
  | cons y ys ih =>
    intro seen x hx hseen
    by_cases hy : y ∈ seen
    · have hxy : x ≠ y := fun h => hseen (h ▸ hy)
      have : x ∈ ys := by
        rcases List.mem_cons.1 hx with h | h
        · exact absurd h hxy
        · exact h
      simpa [dedupKeepFirst, hy] using ih seen x this hseen
    · rcases List.mem_cons.1 hx with h | h
      · simp [dedupKeepFirst, hy, h]
      · have hxy : x ∉ y :: seen ∨ x = y := by
          by_cases hxy : x = y
          · exact Or.inr hxy
          · exact Or.inl (by simp [hxy, hseen])
        rcases hxy with h2 | h2
        · simp only [dedupKeepFirst, if_neg hy]
          exact List.mem_cons_of_mem y (ih (y :: seen) x h h2)
        · simp [dedupKeepFirst, hy, h2]

theorem dedupKeepFirst_nodup_fresh (l : List Nat) :
    ∀ seen, (dedupKeepFirst seen l).Nodup ∧ ∀ x ∈ dedupKeepFirst seen l, x ∉ seen := by
  induction l with
  | nil => intro seen; simp [dedupKeepFirst]
  | cons y ys ih =>
    intro seen
    by_cases hy : y ∈ seen
    · simpa [dedupKeepFirst, hy] using ih seen
    · obtain ⟨hnd, hfresh⟩ := ih (y :: seen)
      refine ⟨?_, ?_⟩
      · simp only [dedupKeepFirst, if_neg hy, List.nodup_cons]
        exact ⟨fun hmem => (hfresh y hmem) (List.mem_cons_self y seen), hnd⟩
      · intro x hx
        simp only [dedupKeepFirst, if_neg hy, List.mem_cons] at hx
        rcases hx with rfl | hx
        · exact hy
        · exact fun hs => (hfresh x hx) (List.mem_cons_of_mem y hs)

theorem dedupKeepFirst_head? (l : List Nat) : (dedupKeepFirst [] l).head? = l.head? := by
  cases l with
  | nil => rfl
  | cons x xs => simp [dedupKeepFirst]

/-- In a strictly sorted list, a member that bounds every element from above
is the last element. -/
theorem getLast?_eq_of_sorted_ub (l : List Nat) (x : Nat)
    (hs : l.Pairwise (· < ·)) (hm : x ∈ l) (hub : ∀ y ∈ l, y ≤ x) :
    l.getLast? = some x := by
  induction l with
  | nil => cases hm
  | cons a t ih =>
    cases t with
    | nil =>
      rcases List.mem_cons.1 hm with h | h
      · simp [h]
      · cases h
    | cons b t' =>
      have hab : a < b := (List.pairwise_cons.1 hs).1 b (by simp)
      have hx : x ∈ b :: t' := by
        rcases List.mem_cons.1 hm with h | h
        · exfalso
          have hbx : b ≤ x := hub b (by simp)
          omega
        · exact h
      rw [List.getLast?_cons_cons]
      exact ih (List.pairwise_cons.1 hs).2 hx (fun y hy => hub y (List.mem_cons_of_mem a hy))

theorem linspaceIdx_le (n num i : Nat) (hi : i < num) : linspaceIdx n num i ≤ n - 1 := by
  unfold linspaceIdx
  split
  · omega
  · split
    · omega
    · calc i * (n - 1) / (num - 1) ≤ (num - 1) * (n - 1) / (num - 1) :=
            Nat.div_le_div_right (Nat.mul_le_mul_right _ (by omega))
        _ ≤ n - 1 := by
            rw [Nat.mul_div_cancel_left _ (by omega : 0 < num - 1)]

theorem linspaceIdx_mono (n num i j : Nat) (hij : i ≤ j) (hj : j < num) :
    linspaceIdx n num i ≤ linspaceIdx n num j := by
  by_cases h1 : num = 1
  · simp [linspaceIdx, h1]
  · by_cases hjl : j = num - 1
    · have : linspaceIdx n num j = n - 1 := by simp [linspaceIdx, h1, hjl]
      rw [this]
      exact linspaceIdx_le n num i (by omega)
    · have hil : i ≠ num - 1 := by omega
      simp only [linspaceIdx, if_neg h1, if_neg hjl, if_neg hil]
      exact Nat.div_le_div_right (Nat.mul_le_mul_right _ hij)

theorem linspaceIdx_zero (n num : Nat) (h : 2 ≤ num) : linspaceIdx n num 0 = 0 := by
  simp only [linspaceIdx]
  rw [if_neg (by omega), if_neg (by omega)]
  simp

theorem linspaceIdx_last (n num : Nat) (h : 2 ≤ num) :
    linspaceIdx n num (num - 1) = n - 1 := by
  simp only [linspaceIdx]
  rw [if_neg (by omega)]
  simp

/-- Selecting entries of a strictly increasing list at a strictly increasing
list of in-range indices yields a strictly increasing list of the same length
whose first and last elements are the entries at the first and last index. -/
theorem filterMap_getElem_facts {α : Type} [LinearOrder α] (dates : List α)
    (hd : dates.Pairwise (· < ·)) :
    ∀ is : List Nat, is.Pairwise (· < ·) → (∀ i ∈ is, i < dates.length) →
      (is.filterMap (fun i => dates[i]?)).length = is.length ∧
      (is.filterMap (fun i => dates[i]?)).Pairwise (· < ·) ∧
      (is.filterMap (fun i => dates[i]?)).head? = is.head?.bind (fun i => dates[i]?) ∧
      (is.filterMap (fun i => dates[i]?)).getLast? = is.getLast?.bind (fun i => dates[i]?) := by
  intro is
  induction is with
  | nil => intro _ _; simp
  | cons i it ih =>
    intro hs hb
    have hi : i < dates.length := hb i (by simp)
    have hsome : dates[i]? = some dates[i] := List.getElem?_eq_getElem hi
    obtain ⟨hlen, hpw, hhead, hlast⟩ :=
      ih (List.pairwise_cons.1 hs).2 (fun j hj => hb j (List.mem_cons_of_mem i hj))
    have hcons : (i :: it).filterMap (fun i => dates[i]?)
        = dates[i] :: it.filterMap (fun i => dates[i]?) := by
      simp [List.filterMap_cons, hsome]
    refine ⟨?_, ?_, ?_, ?_⟩
    · rw [hcons]; simp [hlen]
    · rw [hcons, List.pairwise_cons]
      refine ⟨?_, hpw⟩
      intro b hbmem
      obtain ⟨j, hjmem, hjeq⟩ := List.mem_filterMap.1 hbmem
      have hj : j < dates.length := hb j (List.mem_cons_of_mem i hjmem)
      have : dates[j]? = some dates[j] := List.getElem?_eq_getElem hj
      rw [this] at hjeq
      have hij : i < j := (List.pairwise_cons.1 hs).1 j hjmem
      injection hjeq with hbj
      rw [← hbj]
      exact List.pairwise_iff_getElem.1 hd i j hi hj hij
    · rw [hcons]; simp [hsome]
    · cases it with
      | nil => rw [hcons]; simp [hsome]
      | cons j jt =>
        have hj : j < dates.length := hb j (by simp)
        have hjsome : dates[j]? = some dates[j] := List.getElem?_eq_getElem hj
        have hcons2 : (j :: jt).filterMap (fun i => dates[i]?)
            = dates[j] :: jt.filterMap (fun i => dates[i]?) := by
          simp [List.filterMap_cons, hjsome]
        rw [hcons, hcons2, List.getLast?_cons_cons, ← hcons2, hlast,
          List.getLast?_cons_cons]

/-- Facts about the list selected by the subsampling branch of
`_evenly_subsample_dates`, before the final endpoint fixup. -/
theorem subsample_core_facts {α : Type} [LinearOrder α] (dates : List α) (C : Nat)
    (hC : 2 ≤ C) (hCL : C < dates.length) (hinc : dates.Pairwise (· < ·)) :
    ((dedupKeepFirst [] ((List.range C).map (linspaceIdx dates.length C))).filterMap
        (fun i => dates[i]?)).length ≤ C ∧
    ((dedupKeepFirst [] ((List.range C).map (linspaceIdx dates.length C))).filterMap
        (fun i => dates[i]?)).Pairwise (· < ·) ∧
    ((dedupKeepFirst [] ((List.range C).map (linspaceIdx dates.length C))).filterMap
        (fun i => dates[i]?)).head? = dates.head? ∧
    ((dedupKeepFirst [] ((List.range C).map (linspaceIdx dates.length C))).filterMap
        (fun i => dates[i]?)).getLast? = dates.getLast? := by
  have hidx_le : ∀ x ∈ (List.range C).map (linspaceIdx dates.length C),
      x ≤ dates.length - 1 := by
    intro x hx
    obtain ⟨i, hi, rfl⟩ := List.mem_map.1 hx
    exact linspaceIdx_le _ _ _ (List.mem_range.1 hi)
  have hidx_len : ((List.range C).map (linspaceIdx dates.length C)).length = C := by
    simp
  have hidx_pw : ((List.range C).map (linspaceIdx dates.length C)).Pairwise (· ≤ ·) := by
    rw [List.pairwise_iff_getElem]
    intro i j hi hj hij
    rw [hidx_len] at hi hj
    simp only [List.getElem_map, List.getElem_range]
    exact linspaceIdx_mono _ _ _ _ (Nat.le_of_lt hij) hj
  have hsub : List.Sublist
      (dedupKeepFirst [] ((List.range C).map (linspaceIdx dates.length C)))
      ((List.range C).map (linspaceIdx dates.length C)) :=
    dedupKeepFirst_sublist _ []
  have hnd : (dedupKeepFirst [] ((List.range C).map (linspaceIdx dates.length C))).Nodup :=
    (dedupKeepFirst_nodup_fresh _ []).1
  have hpw_lt : (dedupKeepFirst []
      ((List.range C).map (linspaceIdx dates.length C))).Pairwise (· < ·) := by
    have hle := List.Pairwise.sublist hsub hidx_pw
    exact (hle.and hnd).imp (fun h => Nat.lt_of_le_of_ne h.1 h.2)
  have hb : ∀ i ∈ dedupKeepFirst [] ((List.range C).map (linspaceIdx dates.length C)),
      i < dates.length := by
    intro i hi
    have := hidx_le i (hsub.subset hi)
    omega
  have hhead : (dedupKeepFirst []
      ((List.range C).map (linspaceIdx dates.length C))).head? = some 0 := by
    rw [dedupKeepFirst_head?]
    obtain ⟨C', rfl⟩ : ∃ C', C = C' + 1 := ⟨C - 1, by omega⟩
    rw [List.range_succ_eq_map]
    simp [linspaceIdx_zero _ _ hC]
  have hlast_mem : dates.length - 1 ∈
      dedupKeepFirst [] ((List.range C).map (linspaceIdx dates.length C)) := by
    apply mem_dedupKeepFirst _ [] _ _ (by simp)
    rw [← linspaceIdx_last dates.length C hC]
    exact List.mem_map_of_mem _ (List.mem_range.2 (by omega))
  have hlast : (dedupKeepFirst []
      ((List.range C).map (linspaceIdx dates.length C))).getLast? =
      some (dates.length - 1) := by
    apply getLast?_eq_of_sorted_ub _ _ hpw_lt hlast_mem
    intro y hy
    exact hidx_le y (hsub.subset hy)
  obtain ⟨hrlen, hrpw, hrhead, hrlast⟩ :=
    filterMap_getElem_facts dates hinc _ hpw_lt hb
  refine ⟨?_, hrpw, ?_, ?_⟩
  · rw [hrlen]
    calc (dedupKeepFirst [] ((List.range C).map (linspaceIdx dates.length C))).length
        ≤ ((List.range C).map (linspaceIdx dates.length C)).length := hsub.length_le
      _ = C := hidx_len
  · rw [hrhead, hhead, List.head?_eq_getElem?]
    simp
  · rw [hrlast, hlast, List.getLast?_eq_getElem?]
    simp

theorem loadDataBatch_eq_map {ρ ε δ : Type} (load1 : ρ → Except ε δ) (reqs : List ρ) :
    loadDataBatch load1 reqs = reqs.map load1 := by
  induction reqs with
  | nil => rfl
  | cons r rs ih => simp [loadDataBatch, ih]

theorem loadTimeSeriesItems_error_of_mem {ρ ε δ : Type} (load1 : ρ → Except ε δ)
    (reqs : List ρ) (hex : ∃ r ∈ reqs, ∃ e, load1 r = Except.error e) :
    ∃ e, loadTimeSeriesItems load1 reqs = Except.error e := by
  induction reqs with
  | nil => simp at hex
  | cons r rs ih =>
    obtain ⟨r0, hr0, e0, he0⟩ := hex
    cases hload : load1 r with
    | error e => exact ⟨e, by simp [loadTimeSeriesItems, hload]⟩
    | ok v =>
      have hr0' : r0 ∈ rs := by
        rcases List.mem_cons.1 hr0 with rfl | h
        · rw [hload] at he0; cases he0
        · exact h
      obtain ⟨e1, he1⟩ := ih ⟨r0, hr0', e0, he0⟩
      exact ⟨e1, by simp [loadTimeSeriesItems, hload, he1]⟩

theorem loadTimeSeriesItems_ok_of_all {ρ ε δ : Type} (load1 : ρ → Except ε δ)
    (reqs : List ρ) (hall : ∀ r ∈ reqs, ∃ v, load1 r = Except.ok v) :
    ∃ vs, loadTimeSeriesItems load1 reqs = Except.ok vs := by
  induction reqs with
  | nil => exact ⟨[], rfl⟩
  | cons r rs ih =>
    obtain ⟨v, hv⟩ := hall r (by simp)
    obtain ⟨vs, hvs⟩ := ih (fun r2 h2 => hall r2 (List.mem_cons_of_mem r h2))
    exact ⟨v :: vs, by simp [loadTimeSeriesItems, hv, hvs]⟩

end VisLab

namespace VisLab

set_option maxRecDepth 40000 in
/-- C1: The claim asserts that `date_to_timestep_index` round-trips with
`timestep_index_to_date`, is injective on in-range dates, and is strictly
monotonic in calendar time.  The code violates all three:
the forward formula `year * days_in_year(year) + day_of_year` is not a
cumulative day count, while the inverse decodes a cumulative day count
from 1950.  Concretely: 1952-01-01 and 1957-05-08 both map to index 714432;
1952-12-31 maps to a larger index than the later date 1953-01-01; and the
index of 1950-01-01 does not decode back to 1950-01-01. -/
theorem date_timestep_index_not_bijective_monotone :
    date_to_timestep_index (1952, 1, 1) = date_to_timestep_index (1957, 5, 8) ∧
    (1952, 1, 1) ≠ ((1957, 5, 8) : Date) ∧
    dateLt (1952, 12, 31) (1953, 1, 1) = true ∧
    date_to_timestep_index (1953, 1, 1) < date_to_timestep_index (1952, 12, 31) ∧
    timestep_index_to_date (date_to_timestep_index (1950, 1, 1)) ≠ (1950, 1, 1) := by
  refine ⟨by decide, by decide, by decide, by decide, by decide⟩

/-- C2 counterexample: the claim allows any cap `C` with `1 ≤ C < L`, but for
the strictly increasing two-date sequence `[0, 1]` and cap `C = 1` the
subsampler returns `[1]`, which does not contain the first date. -/
theorem subsample_cap_one_drops_first_date :
    evenlySubsampleDates ([0, 1] : List Nat) 1 = [1] ∧
    (0 : Nat) ∉ evenlySubsampleDates ([0, 1] : List Nat) 1 := by
  refine ⟨by decide, by decide⟩

/-- C2 (amended): for every strictly increasing sequence and every cap `C`
with `2 ≤ C < L`, the subsampled result has length `≤ C`, is strictly
increasing, and keeps the first and the last element; a sequence of length
`≤ cap` is returned unchanged.  (For `C = 1` the endpoint fixup replaces the
single selected element with the last date, so only the last date remains.) -/
theorem evenlySubsampleDates_bounds {α : Type} [LinearOrder α]
    (dates : List α) (C : Nat) (hC : 2 ≤ C) (hCL : C < dates.length)
    (hinc : dates.Pairwise (· < ·)) :
    (evenlySubsampleDates dates (C : Int)).length ≤ C ∧
    (evenlySubsampleDates dates (C : Int)).Pairwise (· < ·) ∧
    (evenlySubsampleDates dates (C : Int)).head? = dates.head? ∧
    (evenlySubsampleDates dates (C : Int)).getLast? = dates.getLast? ∧
    ∀ (ds : List α) (cap : Int), (ds.length : Int) ≤ cap →
      evenlySubsampleDates ds cap = ds := by
  obtain ⟨h1, h2, h3, h4⟩ := subsample_core_facts dates C hC hCL hinc
  have hcond : ¬((C : Int) ≤ 0 ∨ (dates.length : Int) ≤ (C : Int)) := by
    push_neg
    omega
  have hL1 : dates.length - 1 < dates.length := by omega
  have hdlast : dates.getLast? = some dates[dates.length - 1] := by
    rw [List.getLast?_eq_getElem?]
    exact List.getElem?_eq_getElem hL1
  have hmain : evenlySubsampleDates dates (C : Int) =
      (dedupKeepFirst [] ((List.range C).map (linspaceIdx dates.length C))).filterMap
        (fun i => dates[i]?) := by
    unfold evenlySubsampleDates
    rw [if_neg hcond]
    simp only [Int.toNat_natCast]
    rw [h4, hdlast]
    simp
  refine ⟨?_, ?_, ?_, ?_, ?_⟩
  · rw [hmain]; exact h1
  · rw [hmain]; exact h2
  · rw [hmain]; exact h3
  · rw [hmain]; exact h4
  · intro ds cap h
    unfold evenlySubsampleDates
    rw [if_pos (Or.inr h)]

theorem evenlySubsampleDates_bounds_witness :
    2 ≤ 2 ∧ 2 < ([0, 1, 2, 3] : List Nat).length ∧
    ([0, 1, 2, 3] : List Nat).Pairwise (· < ·) ∧
    ((evenlySubsampleDates ([0, 1, 2, 3] : List Nat) ((2 : Nat) : Int)).length ≤ 2 ∧
     (evenlySubsampleDates ([0, 1, 2, 3] : List Nat) ((2 : Nat) : Int)).Pairwise (· < ·) ∧
     (evenlySubsampleDates ([0, 1, 2, 3] : List Nat) ((2 : Nat) : Int)).head? =
       ([0, 1, 2, 3] : List Nat).head? ∧
     (evenlySubsampleDates ([0, 1, 2, 3] : List Nat) ((2 : Nat) : Int)).getLast? =
       ([0, 1, 2, 3] : List Nat).getLast? ∧
     ∀ (ds : List Nat) (cap : Int), (ds.length : Int) ≤ cap →
       evenlySubsampleDates ds cap = ds) :=
  ⟨by decide, by decide, by decide,
    evenlySubsampleDates_bounds [0, 1, 2, 3] 2 (by decide) (by decide) (by decide)⟩

/-- C3 counterexample: the claim says a request from 1999-01-01 to 1999-03-01
with step 30 and cap 2 loads exactly {1999-01-01, 1999-03-01}.  The stepped
list is [1999-01-01, 1999-01-31] (the next step, 1999-03-02, is past the end
date), its length 2 is already ≤ cap, so subsampling leaves it unchanged and
the end date 1999-03-01 is never loaded. -/
theorem timeSeries_jan_mar_counterexample :
    timeSeriesDates (1999, 1, 1) (1999, 3, 1) 30 2 ≠ [(1999, 1, 1), (1999, 3, 1)] := by
  decide

/-- C3 (amended): the date list produced for that request is exactly
[1999-01-01, 1999-01-31]. -/
theorem timeSeries_jan_mar_dates :
    timeSeriesDates (1999, 1, 1) (1999, 3, 1) 30 2 = [(1999, 1, 1), (1999, 1, 31)] := by
  decide

/-- C10: `_evenly_subsample_dates` called with a non-positive cap returns the
input list unchanged (the guard `max_points <= 0 or len(dates) <= max_points`
returns `dates` immediately), for every input list. -/
theorem evenlySubsampleDates_nonpos_cap {α : Type} [DecidableEq α]
    (dates : List α) (maxPoints : Int) (h : maxPoints ≤ 0) :
    evenlySubsampleDates dates maxPoints = dates := by
  unfold evenlySubsampleDates
  rw [if_pos (Or.inl h)]

theorem evenlySubsampleDates_nonpos_cap_witness :
    (-3 : Int) ≤ 0 ∧ evenlySubsampleDates ([7, 5, 9] : List Nat) (-3) = [7, 5, 9] :=
  ⟨by decide, evenlySubsampleDates_nonpos_cap [7, 5, 9] (-3) (by decide)⟩

/-- C4: tier order of `_read_dataset` for every key: (a) a disk hit is
returned directly and the state — in particular the memory tier — is left
untouched; (b) on a disk miss a memory hit is returned (for every `fetch`,
so no fetch is consulted), only recency changes; (c) when both tiers miss
and the fetch succeeds, the result is written to the disk cache, inserted
into the memory cache, and returned; (d) the disk write is a no-op when the
file is already present. -/
theorem readDataset_tier_order {κ α ε : Type} [DecidableEq κ]
    (memMax : Nat) (fetch : κ → Except ε α) (st : LoaderState κ α) (k : κ) (v : α) :
    (st.disk.enabled = true → st.disk.files k = some (DiskFile.good v) →
      readDataset memMax fetch st k = (Except.ok v, st)) ∧
    ((readFromDiskCache st.disk k).1 = none → memFind st.mem k = some v →
      readDataset memMax fetch st k =
        (Except.ok v, { disk := (readFromDiskCache st.disk k).2,
                        mem := memTouch st.mem k })) ∧
    ((readFromDiskCache st.disk k).1 = none → memFind st.mem k = none →
      fetch k = Except.ok v →
      readDataset memMax fetch st k =
        (Except.ok v, { disk := writeToDiskCache (readFromDiskCache st.disk k).2 k v,
                        mem := memInsert memMax st.mem k v })) ∧
    ((st.disk.files k).isSome = true → writeToDiskCache st.disk k v = st.disk) := by
  refine ⟨?_, ?_, ?_, ?_⟩
  · intro hen hf
    simp [readDataset, readFromDiskCache, hen, hf]
  · intro hmiss hmem
    simp only [readDataset]
    generalize readFromDiskCache st.disk k = q at hmiss ⊢
    obtain ⟨o, dc2⟩ := q
    simp only at hmiss
    subst hmiss
    simp [readDatasetCached, hmem]
  · intro hmiss hmem hfetch
    simp only [readDataset]
    generalize readFromDiskCache st.disk k = q at hmiss ⊢
    obtain ⟨o, dc2⟩ := q
    simp only at hmiss
    subst hmiss
    simp [readDatasetCached, hmem, hfetch]
  · intro h
    by_cases hen : st.disk.enabled <;> simp [writeToDiskCache, hen, h]

theorem readDataset_tier_order_witness :
    (sampleState.disk.enabled = true ∧
     sampleState.disk.files 1 = some (DiskFile.good 10) ∧
     readDataset 32 sampleFetch sampleState 1 = (Except.ok 10, sampleState)) ∧
    ((readFromDiskCache sampleState.disk 2).1 = none ∧
     memFind sampleState.mem 2 = some 20 ∧
     readDataset 32 sampleFetch sampleState 2 =
       (Except.ok 20, { disk := (readFromDiskCache sampleState.disk 2).2,
                        mem := memTouch sampleState.mem 2 })) ∧
    (memFind sampleState.mem 3 = none ∧ sampleFetch 3 = Except.ok 103 ∧
     readDataset 32 sampleFetch sampleState 3 =
       (Except.ok 103, { disk := writeToDiskCache (readFromDiskCache sampleState.disk 3).2
                           3 103,
                         mem := memInsert 32 sampleState.mem 3 103 })) ∧
    ((sampleState.disk.files 1).isSome = true ∧
     writeToDiskCache sampleState.disk 1 99 = sampleState.disk) :=
  ⟨⟨rfl, rfl, (readDataset_tier_order 32 sampleFetch sampleState 1 10).1 rfl rfl⟩,
   ⟨rfl, rfl, (readDataset_tier_order 32 sampleFetch sampleState 2 20).2.1 rfl rfl⟩,
   ⟨rfl, rfl,
     (readDataset_tier_order 32 sampleFetch sampleState 3 103).2.2.1 rfl rfl rfl⟩,
   ⟨rfl, (readDataset_tier_order 32 sampleFetch sampleState 1 99).2.2.2 rfl⟩⟩

/-- C6: `write_to_disk_cache` is write-once and atomic: when the final file
already exists it performs no file-system action at all (the existing bytes
are never rewritten); when it does not, after every stage of the write the
final name holds either nothing or the whole blob — never a torn file — and
a completed write leaves exactly the whole blob under the final name. -/
theorem writeToDiskCache_write_once_atomic {α : Type} (fs : WriteFs α) (d : α)
    (saveOk : Bool) :
    (fs.finalFile.isSome = true → writeToDiskCacheSteps true fs d saveOk = [] ∧
      runWriteSteps fs (writeToDiskCacheSteps true fs d saveOk) = fs) ∧
    (fs.finalFile = none →
      (∀ pre suf : List (WriteStep α),
        pre ++ suf = writeToDiskCacheSteps true fs d saveOk →
        (runWriteSteps fs pre).finalFile = none ∨
        (runWriteSteps fs pre).finalFile = some (FileData.whole d)) ∧
      (saveOk = true →
        (runWriteSteps fs (writeToDiskCacheSteps true fs d saveOk)).finalFile =
          some (FileData.whole d))) := by
  constructor
  · intro h
    constructor
    · simp [writeToDiskCacheSteps, h]
    · simp [writeToDiskCacheSteps, h, runWriteSteps]
  · intro h
    have hnone : fs.finalFile.isSome = false := by simp [h]
    constructor
    · intro pre suf happ
      cases saveOk with
      | true =>
        have hsteps : writeToDiskCacheSteps true fs d true =
            [WriteStep.saveWhole d, WriteStep.renameTmp] := by
          simp [writeToDiskCacheSteps, hnone]
        rw [hsteps] at happ
        match pre, happ with
        | [], _ => exact Or.inl h
        | [s1], happ =>
          obtain ⟨rfl, -⟩ : s1 = WriteStep.saveWhole d ∧
              suf = [WriteStep.renameTmp] := by
            simpa using happ
          exact Or.inl (by simpa [runWriteSteps, applyWriteStep] using h)
        | s1 :: s2 :: rest, happ =>
          obtain ⟨rfl, rfl, hrest⟩ : s1 = WriteStep.saveWhole d ∧
              s2 = WriteStep.renameTmp ∧ rest ++ suf = [] := by
            simpa using happ
          obtain ⟨rfl, -⟩ := List.append_eq_nil.1 hrest
          exact Or.inr (by simp [runWriteSteps, applyWriteStep])
      | false =>
        have hsteps : writeToDiskCacheSteps true fs d false =
            [WriteStep.saveTorn, WriteStep.unlinkBoth] := by
          simp [writeToDiskCacheSteps, hnone]
        rw [hsteps] at happ
        match pre, happ with
        | [], _ => exact Or.inl h
        | [s1], happ =>
          obtain ⟨rfl, -⟩ : s1 = WriteStep.saveTorn ∧ suf = [WriteStep.unlinkBoth] := by
            simpa using happ
          exact Or.inl (by simpa [runWriteSteps, applyWriteStep] using h)
        | s1 :: s2 :: rest, happ =>
          obtain ⟨rfl, rfl, hrest⟩ : s1 = WriteStep.saveTorn ∧
              s2 = WriteStep.unlinkBoth ∧ rest ++ suf = [] := by
            simpa using happ
          obtain ⟨rfl, -⟩ := List.append_eq_nil.1 hrest
          exact Or.inl (by simp [runWriteSteps, applyWriteStep])
    · intro hok
      subst hok
      simp [writeToDiskCacheSteps, hnone, runWriteSteps, applyWriteStep]

theorem writeToDiskCache_write_once_atomic_witness :
    ((⟨some (FileData.whole 9), none⟩ : WriteFs Nat).finalFile.isSome = true ∧
     runWriteSteps (⟨some (FileData.whole 9), none⟩ : WriteFs Nat)
       (writeToDiskCacheSteps true ⟨some (FileData.whole 9), none⟩ 5 true) =
       ⟨some (FileData.whole 9), none⟩) ∧
    ((⟨none, none⟩ : WriteFs Nat).finalFile = none ∧
     ((runWriteSteps (⟨none, none⟩ : WriteFs Nat) [WriteStep.saveWhole 5]).finalFile = none ∨
      (runWriteSteps (⟨none, none⟩ : WriteFs Nat) [WriteStep.saveWhole 5]).finalFile =
        some (FileData.whole 5)) ∧
     (runWriteSteps (⟨none, none⟩ : WriteFs Nat)
        (writeToDiskCacheSteps true ⟨none, none⟩ 5 true)).finalFile =
       some (FileData.whole 5)) :=
  ⟨⟨rfl, ((writeToDiskCache_write_once_atomic ⟨some (FileData.whole 9), none⟩ 5 true).1
      rfl).2⟩,
   ⟨rfl,
    ((writeToDiskCache_write_once_atomic (⟨none, none⟩ : WriteFs Nat) 5 true).2 rfl).1
      [WriteStep.saveWhole 5] [WriteStep.renameTmp] rfl,
    ((writeToDiskCache_write_once_atomic (⟨none, none⟩ : WriteFs Nat) 5 true).2 rfl).2
      rfl⟩⟩

/-- C7: when both tiers miss and the remote fetch fails, the error is
propagated to the caller and the state is unchanged: the memory cache still
has no entry for the key and no disk-cache file for the key exists, so a
subsequent call re-attempts the fetch. -/
theorem readDataset_fetch_error_caches_nothing {κ α ε : Type} [DecidableEq κ]
    (memMax : Nat) (fetch : κ → Except ε α) (st : LoaderState κ α) (k : κ) (e : ε)
    (hdisk : st.disk.files k = none) (hmem : memFind st.mem k = none)
    (hfetch : fetch k = Except.error e) :
    readDataset memMax fetch st k = (Except.error e, st) ∧
    memFind (readDataset memMax fetch st k).2.mem k = none ∧
    (readDataset memMax fetch st k).2.disk.files k = none := by
  have hmain : readDataset memMax fetch st k = (Except.error e, st) := by
    by_cases hen : st.disk.enabled <;>
      simp [readDataset, readFromDiskCache, hen, hdisk, readDatasetCached, hmem, hfetch]
  exact ⟨hmain, by rw [hmain]; exact hmem, by rw [hmain]; exact hdisk⟩

theorem readDataset_fetch_error_caches_nothing_witness :
    emptyState.disk.files 0 = none ∧ memFind emptyState.mem 0 = none ∧
    sampleFetch 0 = Except.error "boom" ∧
    (readDataset 32 sampleFetch emptyState 0 = (Except.error "boom", emptyState) ∧
     memFind (readDataset 32 sampleFetch emptyState 0).2.mem 0 = none ∧
     (readDataset 32 sampleFetch emptyState 0).2.disk.files 0 = none) :=
  ⟨rfl, rfl, rfl,
   readDataset_fetch_error_caches_nothing 32 sampleFetch emptyState 0 "boom" rfl rfl rfl⟩

/-- C8: `read_from_disk_cache` semantics per key: a corrupt file is deleted
and reported as a miss (the function is total, so the corruption is never
surfaced as an error), files of other keys are untouched; a good file is
returned as a hit with the store unchanged; a disabled tier always
misses. -/
theorem readFromDiskCache_semantics {κ α : Type} [DecidableEq κ]
    (dc : DiskCache κ α) (k : κ) (v : α) :
    (dc.enabled = true → dc.files k = some DiskFile.corrupt →
      (readFromDiskCache dc k).1 = none ∧
      (readFromDiskCache dc k).2.files k = none ∧
      ∀ k2, k2 ≠ k → (readFromDiskCache dc k).2.files k2 = dc.files k2) ∧
    (dc.enabled = true → dc.files k = some (DiskFile.good v) →
      readFromDiskCache dc k = (some v, dc)) ∧
    (dc.enabled = false → readFromDiskCache dc k = (none, dc)) := by
  refine ⟨?_, ?_, ?_⟩
  · intro hen hf
    refine ⟨?_, ?_, ?_⟩
    · simp [readFromDiskCache, hen, hf]
    · simp [readFromDiskCache, hen, hf]
    · intro k2 hk2
      simp [readFromDiskCache, hen, hf, hk2]
  · intro hen hf
    simp [readFromDiskCache, hen, hf]
  · intro hen
    simp [readFromDiskCache, hen]

theorem readFromDiskCache_semantics_witness :
    ((⟨true, fun k => if k = 4 then some DiskFile.corrupt else
        some (DiskFile.good 1)⟩ : DiskCache Nat Nat).enabled = true ∧
     ((readFromDiskCache
        (⟨true, fun k => if k = 4 then some DiskFile.corrupt else
          some (DiskFile.good 1)⟩ : DiskCache Nat Nat) 4).1 = none ∧
      (readFromDiskCache
        (⟨true, fun k => if k = 4 then some DiskFile.corrupt else
          some (DiskFile.good 1)⟩ : DiskCache Nat Nat) 4).2.files 4 = none ∧
      (readFromDiskCache
        (⟨true, fun k => if k = 4 then some DiskFile.corrupt else
          some (DiskFile.good 1)⟩ : DiskCache Nat Nat) 4).2.files 5 =
        some (DiskFile.good 1))) ∧
    readFromDiskCache sampleState.disk 1 = (some 10, sampleState.disk) ∧
    readFromDiskCache (⟨false, fun _ => some (DiskFile.good 2)⟩ : DiskCache Nat Nat) 0 =
      (none, ⟨false, fun _ => some (DiskFile.good 2)⟩) :=
  ⟨⟨rfl, by
      obtain ⟨h1, h2, h3⟩ := (readFromDiskCache_semantics
        (⟨true, fun k => if k = 4 then some DiskFile.corrupt else
          some (DiskFile.good 1)⟩ : DiskCache Nat Nat) 4 0).1 rfl rfl
      exact ⟨h1, h2, h3 5 (by decide)⟩⟩,
   (readFromDiskCache_semantics sampleState.disk 1 10).2.1 rfl rfl,
   (readFromDiskCache_semantics
      (⟨false, fun _ => some (DiskFile.good 2)⟩ : DiskCache Nat Nat) 0 0).2.2 rfl⟩

/-- C9: error-handling asymmetry.  Batch: the result list always covers
every request and the i-th outcome is exactly the i-th item's own outcome —
one item's failure never aborts its siblings, and the call itself returns a
list rather than failing.  Time series: if any item fails, the whole call
fails with an error (no partial series); it succeeds only when every item
succeeds. -/
theorem batch_vs_time_series_error_asymmetry {ρ ε δ : Type}
    (load1 : ρ → Except ε δ) (reqs : List ρ) :
    (loadDataBatch load1 reqs).length = reqs.length ∧
    (∀ (i : Nat) (h1 : i < (loadDataBatch load1 reqs).length) (h2 : i < reqs.length),
      (loadDataBatch load1 reqs).get ⟨i, h1⟩ = load1 (reqs.get ⟨i, h2⟩)) ∧
    ((∃ r ∈ reqs, ∃ e, load1 r = Except.error e) →
      ∃ e, loadTimeSeriesItems load1 reqs = Except.error e) ∧
    ((∀ r ∈ reqs, ∃ v, load1 r = Except.ok v) →
      ∃ vs, loadTimeSeriesItems load1 reqs = Except.ok vs) := by
  refine ⟨?_, ?_, loadTimeSeriesItems_error_of_mem load1 reqs,
    loadTimeSeriesItems_ok_of_all load1 reqs⟩
  · rw [loadDataBatch_eq_map]; simp
  · intro i h1 h2
    simp [loadDataBatch_eq_map]

theorem batch_vs_time_series_error_asymmetry_witness :
    (loadDataBatch sampleLoad1 [0, 1, 2]).length = 3 ∧
    (loadDataBatch sampleLoad1 [0, 1, 2]).get ⟨1, by decide⟩ =
      sampleLoad1 (([0, 1, 2] : List Nat).get ⟨1, by decide⟩) ∧
    (∃ r ∈ [0, 1, 2], ∃ e, sampleLoad1 r = Except.error e) ∧
    (∃ e, loadTimeSeriesItems sampleLoad1 [0, 1, 2] = Except.error e) ∧
    (∀ r ∈ [0, 2], ∃ v, sampleLoad1 r = Except.ok v) ∧
    (∃ vs, loadTimeSeriesItems sampleLoad1 [0, 2] = Except.ok vs) := by
  refine ⟨(batch_vs_time_series_error_asymmetry sampleLoad1 [0, 1, 2]).1,
    (batch_vs_time_series_error_asymmetry sampleLoad1 [0, 1, 2]).2.1 1 (by decide)
      (by decide),
    ⟨1, by decide, 7, rfl⟩,
    (batch_vs_time_series_error_asymmetry sampleLoad1 [0, 1, 2]).2.2.1
      ⟨1, by decide, 7, rfl⟩,
    ?_, ?_⟩
  · intro r hr
    fin_cases hr
    · exact ⟨100, rfl⟩
    · exact ⟨102, rfl⟩
  · refine (batch_vs_time_series_error_asymmetry sampleLoad1 [0, 2]).2.2.2 ?_
    intro r hr
    fin_cases hr
    · exact ⟨100, rfl⟩
    · exact ⟨102, rfl⟩

end VisLab
